import Mathlib

/-!
Verification of the git-rust object store (src/src/main.rs) via a shallow
embedding.  Bytes are modelled as `Nat` (values < 256), byte strings as
`List Nat`, and the on-disk object store as an association list from path
strings to stored bytes.  Panics in the source are modelled as `Option`
failures.
-/

set_option maxRecDepth 10000

namespace GitRs

/-- Fuel-indexed helper for decimal rendering; `natToDecBytes` always
supplies enough fuel, so the `fuel = 0` case is unreachable. -/
def natToDecAux : Nat → Nat → List Nat
  | 0, _ => []
  | fuel + 1, n =>
    if n < 10 then [48 + n] else natToDecAux fuel (n / 10) ++ [48 + n % 10]

/-- ASCII decimal digits of a natural number, most significant first.
Models the `to_string` integer formatting used by the source
(`self.size.to_string()`, `self.mode.to_string()`). -/
def natToDecBytes (n : Nat) : List Nat := natToDecAux (n + 1) n

/-- Truncation to 32 bits, as performed by `u32` wrapping arithmetic. -/
def w32 (x : Nat) : Nat := x % 4294967296

/-- 32-bit left rotation (input assumed < 2^32). -/
def rotl (n x : Nat) : Nat := w32 ((x <<< n) ||| (x >>> (32 - n)))

/-- Big-endian 32-bit words from a byte list (SHA-1 message schedule input). -/
def bytesToWords : List Nat → List Nat
  | b0 :: b1 :: b2 :: b3 :: rest =>
    (((b0 * 256 + b1) * 256 + b2) * 256 + b3) :: bytesToWords rest
  | _ => []

/-- Big-endian byte rendering of `n` in exactly `k` bytes. -/
def toBytesBE : Nat → Nat → List Nat
  | 0, _ => []
  | k + 1, n => toBytesBE k (n / 256) ++ [n % 256]

/-- Extends the 16-word SHA-1 schedule by `k` further words. -/
def sha1ExtendAux : List Nat → Nat → List Nat
  | w, 0 => w
  | w, k + 1 =>
    let L := w.length
    let x := (w.getD (L - 3) 0) ^^^ (w.getD (L - 8) 0) ^^^
             (w.getD (L - 14) 0) ^^^ (w.getD (L - 16) 0)
    sha1ExtendAux (w ++ [rotl 1 x]) k

/-- The full 80-word SHA-1 message schedule of one block. -/
def sha1Schedule (block : List Nat) : List Nat :=
  sha1ExtendAux (bytesToWords block) 64

/-- SHA-1 round function. -/
def sha1F (t b c d : Nat) : Nat :=
  if t < 20 then (b &&& c) ||| ((b ^^^ 4294967295) &&& d)
  else if t < 40 then b ^^^ c ^^^ d
  else if t < 60 then (b &&& c) ||| (b &&& d) ||| (c &&& d)
  else b ^^^ c ^^^ d

/-- SHA-1 round constants. -/
def sha1K (t : Nat) : Nat :=
  if t < 20 then 1518500249
  else if t < 40 then 1859775393
  else if t < 60 then 2400959708
  else 3395469782

/-- One SHA-1 round on the five-word state. -/
def sha1Round (ws : List Nat) (s : Nat × Nat × Nat × Nat × Nat) (t : Nat) :
    Nat × Nat × Nat × Nat × Nat :=
  match s with
  | (a, b, c, d, e) =>
    let temp := w32 (rotl 5 a + sha1F t b c d + e + sha1K t + ws.getD t 0)
    (temp, a, rotl 30 b, c, d)

/-- SHA-1 compression of one 64-byte block. -/
def sha1Block (h : Nat × Nat × Nat × Nat × Nat) (block : List Nat) :
    Nat × Nat × Nat × Nat × Nat :=
  let ws := sha1Schedule block
  match h, (List.range 80).foldl (sha1Round ws) h with
  | (h0, h1, h2, h3, h4), (a, b, c, d, e) =>
    (w32 (h0 + a), w32 (h1 + b), w32 (h2 + c), w32 (h3 + d), w32 (h4 + e))

/-- SHA-1 padding: 0x80, zeros to 56 mod 64, then the 64-bit bit length. -/
def sha1Pad (m : List Nat) : List Nat :=
  m ++ [128] ++ List.replicate ((119 - m.length % 64) % 64) 0 ++
    toBytesBE 8 (m.length * 8)

/-- Folds `sha1Block` over successive 64-byte blocks.  The fuel (first
argument) only needs to be at least the number of blocks; `sha1Bytes`
passes the total byte length, which always suffices. -/
def sha1BlocksAux : Nat → (Nat × Nat × Nat × Nat × Nat) → List Nat →
    Nat × Nat × Nat × Nat × Nat
  | 0, h, _ => h
  | _ + 1, h, [] => h
  | fuel + 1, h, a :: as =>
    sha1BlocksAux fuel (sha1Block h ((a :: as).take 64)) ((a :: as).drop 64)

/-- SHA-1 initial state. -/
def sha1Init : Nat × Nat × Nat × Nat × Nat :=
  (1732584193, 4023233417, 2562383102, 271733878, 3285377520)

/-- The 20-byte SHA-1 digest of a byte list.  Models the `sha1` crate used
by `GitObject::hash`. -/
def sha1Bytes (m : List Nat) : List Nat :=
  let padded := sha1Pad m
  match sha1BlocksAux padded.length sha1Init padded with
  | (h0, h1, h2, h3, h4) =>
    toBytesBE 4 h0 ++ toBytesBE 4 h1 ++ toBytesBE 4 h2 ++
      toBytesBE 4 h3 ++ toBytesBE 4 h4

/-- Lowercase hex digit character. -/
def hexDigitChar (n : Nat) : Char :=
  Char.ofNat (if n < 10 then 48 + n else 87 + n)

/-- Lowercase hex string of a byte list.  Models the hash formatting
`format ( \x7b:x\x7d , hasher.finalize())` in `GitObject::hash`. -/
def toHexStr (bs : List Nat) : String :=
  String.mk (bs.flatMap fun b => [hexDigitChar (b / 16), hexDigitChar (b % 16)])

/-- Lowercase hex characters of a byte list. -/
def toHexChars (bs : List Nat) : List Char :=
  bs.flatMap fun b => [hexDigitChar (b / 16), hexDigitChar (b % 16)]

/-- Object kinds (`GitObjectKind` in the source). -/
inductive GitObjectKind where
  | blob
  | tree
  | commit
deriving DecidableEq, Repr

/-- `GitObjectKind::as_str`, as ASCII bytes. -/
def GitObjectKind.asStrBytes : GitObjectKind → List Nat
  | .blob => [98, 108, 111, 98]
  | .tree => [116, 114, 101, 101]
  | .commit => [99, 111, 109, 109, 105, 116]

/-- In-memory object (`GitObject` in the source). -/
structure GitObject where
  kind : GitObjectKind
  size : Nat
  content : List Nat
deriving DecidableEq, Repr

/-- `GitObject::serialize`: the `<kind> <size>\0<content>` envelope. -/
def serializeObj (o : GitObject) : List Nat :=
  o.kind.asStrBytes ++ [32] ++ natToDecBytes o.size ++ [0] ++ o.content

/-- `GitObject::hash` as raw digest bytes. -/
def hashBytes (o : GitObject) : List Nat := sha1Bytes (serializeObj o)

/-- `GitObject::hash` as the 40-char lowercase hex string the source
stores in `Sha1Hash`. -/
def hashHex (o : GitObject) : String := toHexStr (hashBytes o)

/-- The on-disk object store, modelled as an association list from path
strings to stored bytes; the newest write for a path is at the head.
The zlib layer applied by `GitObject::write` and undone on read is an
external (`flate2`) bijection and no claim concerns it, so the stored
bytes are the uncompressed envelope. -/
abbrev Store := List (String × List Nat)

/-- Looks a path up in the store (newest entry wins, matching file
overwrite semantics); a missing file makes the source panic on open,
modelled by `none`. -/
def storeFind : Store → String → Option (List Nat)
  | [], _ => none
  | (k, v) :: rest, p => if k = p then some v else storeFind rest p

/-- The `.git/objects/<2 hex>/<38 hex>` path derived from a digest given
as hex characters.  The source slices the hex `String` at byte offset 2;
for the ASCII strings in scope byte and character offsets coincide. -/
def storePath (hex : List Char) : String :=
  String.mk (".git/objects/".data ++ hex.take 2 ++ [Char.ofNat 47] ++ hex.drop 2)

/-- `GitObject::write`: serializes and stores the bytes at the
digest-derived path, returning the updated store. -/
def writeObj (o : GitObject) (s : Store) : Store :=
  (storePath (toHexChars (hashBytes o)), serializeObj o) :: s

/-- Is `b` an ASCII decimal digit. -/
def isDigitB (b : Nat) : Bool := 48 ≤ b && b ≤ 57

/-- Numeric value of a list of ASCII digits. -/
def decValue (l : List Nat) : Nat := l.foldl (fun a b => a * 10 + (b - 48)) 0

/-- Models Rust `str::parse` for unsigned integer types: an optional
leading plus sign, then one or more decimal digits.  (Overflow of the
fixed-width type is not modelled; the sizes and modes in scope are
small.)  Invalid UTF-8 in the token also fails here, since bytes ≥ 128
are not digits, so the source's separate `from_utf8` check needs no
separate model. -/
def parseDec (l : List Nat) : Option Nat :=
  let l₁ := if l.head? = some 43 then l.tail else l
  if l₁ ≠ [] && l₁.all isDigitB then some (decValue l₁) else none

/-- The parsing part of `<GitObject as From<Sha1Hash>>::from` (source
lines 229-253): first space and first NUL in the whole buffer delimit
the kind and size tokens; only `blob` and `tree` are accepted kinds (the
source panics on any other token, including `commit`); content is
everything after the NUL.  The declared size is not compared with the
content length.  Panics are modelled as `none`. -/
def deserializeObj (buffer : List Nat) : Option GitObject :=
  match buffer.findIdx? (· == 32), buffer.findIdx? (· == 0) with
  | some spaceIdx, some nullIdx =>
    let kindBytes := buffer.take spaceIdx
    let kind? : Option GitObjectKind :=
      if kindBytes = GitObjectKind.blob.asStrBytes then some .blob
      else if kindBytes = GitObjectKind.tree.asStrBytes then some .tree
      else none
    match kind? with
    | none => none
    | some kind =>
      if spaceIdx + 1 ≤ nullIdx then
        match parseDec ((buffer.drop (spaceIdx + 1)).take (nullIdx - (spaceIdx + 1))) with
        | some size => some ⟨kind, size, buffer.drop (nullIdx + 1)⟩
        | none => none
      else none
  | _, _ => none

/-- `<GitObject as From<Sha1Hash>>::from`: reads the file at the digest
path (a missing file panics, modelled by `none`) and parses the
envelope. -/
def gitObjectFromHex (s : Store) (hex : List Char) : Option GitObject :=
  (storeFind s (storePath hex)).bind deserializeObj

/-- Is `b` a UTF-8 continuation byte (`0x80..=0xBF`). -/
def isCont (b : Nat) : Bool := 128 ≤ b && b ≤ 191

/-- Length of the valid UTF-8 sequence at the front of the list, if any:
the standard table (no overlongs, no surrogates, max U+10FFFF). -/
def utf8SeqLen : List Nat → Option Nat
  | [] => none
  | b0 :: rest =>
    if b0 < 128 then some 1
    else if 194 ≤ b0 && b0 ≤ 223 then
      match rest with
      | b1 :: _ => if isCont b1 then some 2 else none
      | [] => none
    else if 224 ≤ b0 && b0 ≤ 239 then
      match rest with
      | b1 :: b2 :: _ =>
        let lo := if b0 = 224 then 160 else 128
        let hi := if b0 = 237 then 159 else 191
        if (lo ≤ b1 && b1 ≤ hi) && isCont b2 then some 3 else none
      | _ => none
    else if 240 ≤ b0 && b0 ≤ 244 then
      match rest with
      | b1 :: b2 :: b3 :: _ =>
        let lo := if b0 = 240 then 144 else 128
        let hi := if b0 = 244 then 143 else 191
        if (lo ≤ b1 && b1 ≤ hi) && isCont b2 && isCont b3 then some 4 else none
      | _ => none
    else none

/-- Bytes consumed by one replacement character on invalid input: the
length of the maximal valid prefix of a sequence, at least 1, matching
the `String::from_utf8_lossy` substitution of maximal subparts. -/
def invalidLen : List Nat → Nat
  | [] => 1
  | b0 :: rest =>
    if 224 ≤ b0 && b0 ≤ 239 then
      match rest with
      | b1 :: _ =>
        let lo := if b0 = 224 then 160 else 128
        let hi := if b0 = 237 then 159 else 191
        if lo ≤ b1 && b1 ≤ hi then 2 else 1
      | [] => 1
    else if 240 ≤ b0 && b0 ≤ 244 then
      match rest with
      | b1 :: b2 :: _ =>
        let lo := if b0 = 240 then 144 else 128
        let hi := if b0 = 244 then 143 else 191
        if lo ≤ b1 && b1 ≤ hi then (if isCont b2 then 3 else 2) else 1
      | [b1] =>
        let lo := if b0 = 240 then 144 else 128
        let hi := if b0 = 244 then 143 else 191
        if lo ≤ b1 && b1 ≤ hi then 2 else 1
      | [] => 1
    else 1

/-- Fuel-indexed lossy decoding; `utf8Lossy` passes the byte count,
which always suffices since every step consumes at least one byte. -/
def utf8LossyAux : Nat → List Nat → List Nat
  | 0, _ => []
  | _ + 1, [] => []
  | fuel + 1, b :: rest =>
    match utf8SeqLen (b :: rest) with
    | some k => (b :: rest).take k ++ utf8LossyAux fuel ((b :: rest).drop k)
    | none => [239, 191, 189] ++ utf8LossyAux fuel ((b :: rest).drop (invalidLen (b :: rest)))

/-- The bytes of `String::from_utf8_lossy(content).to_string()`: valid
sequences copied verbatim, each maximal invalid subpart replaced by
U+FFFD (`EF BF BD`). -/
def utf8Lossy (l : List Nat) : List Nat := utf8LossyAux l.length l

/-- Fuel-indexed UTF-8 validity scan. -/
def validUtf8Aux : Nat → List Nat → Bool
  | _, [] => true
  | 0, _ :: _ => false
  | fuel + 1, b :: rest =>
    match utf8SeqLen (b :: rest) with
    | some k => validUtf8Aux fuel ((b :: rest).drop k)
    | none => false

/-- Decides `str::from_utf8` success. -/
def validUtf8 (l : List Nat) : Bool := validUtf8Aux l.length l

/-- `GitObject::parse_as_blob`: the kind assertion in the source is
commented out, so the content is lossy-decoded regardless of kind. -/
def parseAsBlob (o : GitObject) : List Nat := utf8Lossy o.content

/-- The `cat-file -p` command body (source lines 425-431): loads the
object by digest and prints `parse_as_blob`; the result is the printed
bytes, `none` when loading panics. -/
def catFile (s : Store) (hex : String) : Option (List Nat) :=
  (gitObjectFromHex s hex.data).map parseAsBlob

/-- Tree entry (`TreeEntry` in the source).  The source stores the
digest as its 40-char lowercase hex string and converts back with
`Sha1Hash::as_bytes` when serializing; the model carries the 20 raw
bytes and renders hex where the source formats.  All digests in scope
are produced by `GitObject::hash` or by hex-formatting raw bytes, so the
`expect` on invalid hex inside `as_bytes` is unreachable. -/
structure TreeEntry where
  mode : Nat
  kind : GitObjectKind
  hash : List Nat
  name : List Nat
deriving DecidableEq, Repr

/-- `TreeEntry::serialize`: `mode SP name NUL <20 raw hash bytes>`. -/
def serializeEntry (e : TreeEntry) : List Nat :=
  natToDecBytes e.mode ++ [32] ++ e.name ++ [0] ++ e.hash

/-- `content.iter().skip(start).position(..)` plus `start`: the absolute
index of the first occurrence of byte `b` at or after `start`. -/
def findIdxFrom (b : Nat) (c : List Nat) (start : Nat) : Option Nat :=
  ((c.drop start).findIdx? (· == b)).map (start + ·)

/-- The scanning loop of `GitObject::parse_as_tree` (source lines
160-206), fuel-indexed; `parseAsTree` passes `size + 1` fuel, which
suffices since every iteration advances the cursor by at least 21.  The
loop runs while the cursor is below the declared `size`; each iteration
finds the first space and first NUL at or after the cursor, parses the
mode and name between them, takes exactly 20 raw digest bytes after the
NUL, and loads the referenced object to recover its kind.  All panics
(missing delimiter, bad mode, invalid-UTF-8 name, out-of-range hash
slice, missing child object) are `none`. -/
def parseTreeLoop (st : Store) (c : List Nat) (size : Nat) :
    Nat → Nat → Option (List TreeEntry)
  | 0, _ => none
  | fuel + 1, start =>
    if start < size then
      match findIdxFrom 32 c start, findIdxFrom 0 c start with
      | some spaceIdx, some nullIdx =>
        let endIdx := nullIdx + 1 + 20
        match parseDec ((c.drop start).take (spaceIdx - start)) with
        | none => none
        | some mode =>
          if spaceIdx + 1 ≤ nullIdx then
            let name := (c.drop (spaceIdx + 1)).take (nullIdx - (spaceIdx + 1))
            if validUtf8 name then
              if endIdx ≤ c.length then
                let hash := (c.drop (nullIdx + 1)).take 20
                match gitObjectFromHex st (toHexChars hash) with
                | none => none
                | some child =>
                  match parseTreeLoop st c size fuel endIdx with
                  | none => none
                  | some rest => some (⟨mode, child.kind, hash, name⟩ :: rest)
              else none
            else none
          else none
      | _, _ => none
    else some []

/-- `GitObject::parse_as_tree`: asserts the object kind is `Tree`
(assertion failure modelled by `none`), then scans the content. -/
def parseAsTree (st : Store) (o : GitObject) : Option (List TreeEntry) :=
  if o.kind = .tree then parseTreeLoop st o.content o.size (o.size + 1) 0 else none

/-- A filesystem snapshot: a regular file with its content bytes, or a
directory with named children in filesystem enumeration order.  Names
are byte lists (the source converts `OsString` names to `String`). -/
inductive FSTree where
  | file : List Nat → FSTree
  | dir : List (List Nat × FSTree) → FSTree

/-- The bytes of the reserved name `.git`. -/
def gitName : List Nat := [46, 103, 105, 116]

/-- `entry_path.is_dir()`. -/
def FSTree.isDir : FSTree → Bool
  | .file _ => false
  | .dir _ => true

/-- `fs::read_dir(..).next().is_none()`: a directory with no direct
entries at all. -/
def FSTree.isEmptyDir : FSTree → Bool
  | .dir [] => true
  | _ => false

/-- Byte-lexicographic order on byte lists: the Rust `String` ordering
used by `sort_by_key(|entry| entry.name.clone())`. -/
def leB : List Nat → List Nat → Bool
  | [], _ => true
  | _ :: _, [] => false
  | a :: as, b :: bs => if a < b then true else if b < a then false else leB as bs

/-- The comparison `sort_by_key` sorts tree entries with. -/
def entryLE (a b : TreeEntry) : Prop := leB a.name b.name = true

instance : DecidableRel entryLE := fun _ _ => inferInstanceAs (Decidable (_ = true))

mutual

/-- `<GitObject as From<&Path>>::from` (source lines 257-315).  Returns
the constructed object together with the store after the child writes
performed while descending. -/
def fromPathS : FSTree → Store → GitObject × Store
  | .file c, s => (⟨.blob, c.length, c⟩, s)
  | .dir l, s =>
    let (es, s₁) := buildEntriesS l s
    let sorted := List.insertionSort entryLE es
    let content := sorted.flatMap serializeEntry
    (⟨.tree, content.length, content⟩, s₁)

/-- The child loop of the directory branch (source lines 274-300): skip
`.git`, skip directories with no direct children, otherwise recursively
build the child object, write it, and collect its entry. -/
def buildEntriesS : List (List Nat × FSTree) → Store → List TreeEntry × Store
  | [], s => ([], s)
  | (name, child) :: rest, s =>
    if name = gitName then buildEntriesS rest s
    else if child.isDir && child.isEmptyDir then buildEntriesS rest s
    else
      let mode := if child.isDir then 40000 else 100644
      let (obj, s₁) := fromPathS child s
      let s₂ := writeObj obj s₁
      let entry : TreeEntry := ⟨mode, obj.kind, hashBytes obj, name⟩
      let (es, s₃) := buildEntriesS rest s₂
      (entry :: es, s₃)

end

/-- The entry a surviving child contributes, independent of the store:
the `.git` and directly-empty-directory skips of the child loop, as a
per-child function (used to characterize the loop's output). -/
def pureEntry (p : List Nat × FSTree) : Option TreeEntry :=
  if p.1 = gitName then none
  else if p.2.isDir && p.2.isEmptyDir then none
  else some ⟨if p.2.isDir then 40000 else 100644, ((fromPathS p.2 []).1).kind,
    hashBytes (fromPathS p.2 []).1, p.1⟩

/-- The `hash-object` command body (source lines 417-424): builds the
object from the path (for a directory this already writes the children),
prints the digest, and writes the object itself only when `-w` is given.
The result is the printed hex digest and the final store. -/
def hashObjectCmd (t : FSTree) (write : Bool) (s : Store) : String × Store :=
  let (obj, s₁) := fromPathS t s
  (hashHex obj, if write then writeObj obj s₁ else s₁)

/-- Decimal string of a natural number. -/
def natDecStr (n : Nat) : String := String.mk ((natToDecBytes n).map Char.ofNat)

/-- Rust integer display: optional minus sign, then decimal digits. -/
def intDecStr (i : Int) : String :=
  (if i < 0 then "-" else "") ++ natDecStr i.natAbs

/-- Zero-pads the digit part to width 2, as the `:+03` (2 digits after
the mandatory sign) and `:02` format specifiers do. -/
def pad2 (s : String) : String :=
  String.mk (List.replicate (2 - s.length) (Char.ofNat 48)) ++ s

/-- `get_timestamp_str` (source lines 344-352).  The ambient clock read
(`Local::now()`) is threaded explicitly as unix seconds `ts` and the
fixed zone offset `offsetSecs` in seconds, since the embedding passes
effects explicitly.  Division truncates toward zero as for Rust `i32`;
the remainder is taken of the non-negative `offset.abs()`. -/
def getTimestampStr (ts offsetSecs : Int) : String :=
  let hours : Int := Int.tdiv offsetSecs 3600
  let minutes : Nat := offsetSecs.natAbs % 3600 / 60
  let timezone :=
    (if hours < 0 then "-" else "+") ++ pad2 (natDecStr hours.natAbs) ++
      pad2 (natDecStr minutes)
  intDecStr ts ++ " " ++ timezone

/-- UTF-8 encoding of one code point. -/
def utf8EncodeNat (n : Nat) : List Nat :=
  if n < 128 then [n]
  else if n < 2048 then [192 + n / 64, 128 + n % 64]
  else if n < 65536 then [224 + n / 4096, 128 + n / 64 % 64, 128 + n % 64]
  else [240 + n / 262144, 128 + n / 4096 % 64, 128 + n / 64 % 64, 128 + n % 64]

/-- The bytes of a Rust `String` (`String::as_bytes`). -/
def strBytes (s : String) : List Nat :=
  s.data.flatMap fun c => utf8EncodeNat c.toNat

/-- `<GitObject as From<(Sha1Hash, Option<Sha1Hash>, String)>>::from`
(source lines 317-342): the commit object.  The tree and parent digests
arrive as the hex strings supplied on the command line; the clock read
inside `get_timestamp_str` is threaded explicitly as `ts`/`offsetSecs`. -/
def commitObj (treeHash : String) (parentHash : Option String) (message : String)
    (ts offsetSecs : Int) : GitObject :=
  let timestamp := getTimestampStr ts offsetSecs
  let content :=
    strBytes ("tree " ++ treeHash ++ "\n") ++
    (match parentHash with
     | some p => strBytes ("parent " ++ p ++ "\n")
     | none => []) ++
    strBytes ("author fsiraj <fsiraj@git.com> " ++ timestamp ++ "\n") ++
    strBytes ("committer fsiraj <fsiraj@git.com> " ++ timestamp ++ "\n") ++
    [10] ++ strBytes message ++ [10]
  ⟨.commit, content.length, content⟩

/-! ## Validation of the SHA-1 model -/

/-- The SHA-1 model agrees with the standard `abc` test vector. -/
theorem sha1_vector_abc :
    toHexStr (sha1Bytes [97, 98, 99]) =
      "a9993e364706816aba3e25717850c26c9cd0d89d" := by decide

/-- The SHA-1 model agrees with the empty-message test vector. -/
theorem sha1_vector_empty :
    toHexStr (sha1Bytes []) = "da39a3ee5e6b4b0d3255bfef95601890afd80709" := by
  decide

/-! ## Lemmas about decimal rendering -/

theorem natToDecAux_digits {fuel n : Nat} (h : n < fuel) :
    ∀ b ∈ natToDecAux fuel n, 48 ≤ b ∧ b ≤ 57 := by
  induction fuel generalizing n with
  | zero => omega
  | succ fuel ih =>
    intro b hb
    unfold natToDecAux at hb
    by_cases h10 : n < 10
    · simp [h10] at hb
      omega
    · have hdiv : n / 10 < n := Nat.div_lt_self (by omega) (by omega)
      simp [h10] at hb
      rcases hb with hb | hb
      · exact ih (by omega) b hb
      · omega

theorem natToDecAux_ne_nil {fuel n : Nat} (h : n < fuel) :
    natToDecAux fuel n ≠ [] := by
  cases fuel with
  | zero => omega
  | succ fuel =>
    unfold natToDecAux
    by_cases h10 : n < 10 <;> simp [h10]

theorem decValue_append_single (l : List Nat) (d : Nat) :
    decValue (l ++ [d]) = decValue l * 10 + (d - 48) := by
  simp [decValue, List.foldl_append]

theorem decValue_natToDecAux {fuel n : Nat} (h : n < fuel) :
    decValue (natToDecAux fuel n) = n := by
  induction fuel generalizing n with
  | zero => omega
  | succ fuel ih =>
    unfold natToDecAux
    by_cases h10 : n < 10
    · simp [h10, decValue]
    · have hdiv : n / 10 < n := Nat.div_lt_self (by omega) (by omega)
      have hmod := Nat.div_add_mod n 10
      simp [h10, decValue_append_single, ih (show n / 10 < fuel by omega)]
      omega

theorem natToDecBytes_digits (n : Nat) :
    ∀ b ∈ natToDecBytes n, 48 ≤ b ∧ b ≤ 57 :=
  natToDecAux_digits (by omega)

theorem natToDecBytes_ne_nil (n : Nat) : natToDecBytes n ≠ [] :=
  natToDecAux_ne_nil (by omega)

theorem decValue_natToDecBytes (n : Nat) : decValue (natToDecBytes n) = n :=
  decValue_natToDecAux (by omega)

theorem parseDec_natToDecBytes (n : Nat) : parseDec (natToDecBytes n) = some n := by
  have hd := natToDecBytes_digits n
  have hne := natToDecBytes_ne_nil n
  have hhead : (natToDecBytes n).head? ≠ some 43 := by
    rcases hl : natToDecBytes n with _ | ⟨b, rest⟩
    · exact absurd hl hne
    · have hb := hd b (by rw [hl]; exact List.mem_cons_self b rest)
      simp
      omega
  have hall : (natToDecBytes n).all isDigitB = true := by
    rw [List.all_eq_true]
    intro b hb
    have := hd b hb
    simp [isDigitB]
    omega
  simp [parseDec, hhead, hne, hall, decValue_natToDecBytes]

/-! ## Lemmas about the envelope codec -/

theorem findIdx?_first {p : Nat → Bool} {v : Nat} (u w : List Nat)
    (hu : ∀ x ∈ u, p x = false) (hv : p v = true) :
    (u ++ v :: w).findIdx? p = some u.length := by
  induction u with
  | nil => simp [hv]
  | cons a us ih =>
    have ha : p a = false := hu a (List.mem_cons_self a us)
    simp only [List.cons_append, List.findIdx?_cons, ha, Bool.false_eq_true,
      if_false, List.findIdx?_start_succ]
    rw [ih fun x hx => hu x (List.mem_cons_of_mem a hx)]
    simp

theorem kind_bytes_not_space {k : GitObjectKind} :
    ∀ x ∈ k.asStrBytes, (x == 32) = false := by
  cases k <;> decide

theorem kind_bytes_not_nul {k : GitObjectKind} :
    ∀ x ∈ k.asStrBytes, (x == 0) = false := by
  cases k <;> decide

/-- Decoding inverts encoding for every object whose kind the decoder
accepts, i.e. every kind except `Commit`, whatever the `size` field. -/
theorem deserializeObj_serializeObj (o : GitObject) (h : o.kind ≠ .commit) :
    deserializeObj (serializeObj o) = some o := by
  obtain ⟨k, size, content⟩ := o
  have hform1 : serializeObj ⟨k, size, content⟩ =
      k.asStrBytes ++ 32 :: (natToDecBytes size ++ 0 :: content) := by
    simp [serializeObj, List.append_assoc]
  have hform2 : serializeObj ⟨k, size, content⟩ =
      (k.asStrBytes ++ 32 :: natToDecBytes size) ++ 0 :: content := by
    simp [serializeObj, List.append_assoc]
  have hform3 : serializeObj ⟨k, size, content⟩ =
      (k.asStrBytes ++ [32]) ++ (natToDecBytes size ++ 0 :: content) := by
    simp [serializeObj, List.append_assoc]
  have hform4 : serializeObj ⟨k, size, content⟩ =
      (k.asStrBytes ++ 32 :: natToDecBytes size ++ [0]) ++ content := by
    simp [serializeObj, List.append_assoc]
  have hdig := natToDecBytes_digits size
  have hspace : (serializeObj ⟨k, size, content⟩).findIdx? (· == 32) =
      some k.asStrBytes.length := by
    rw [hform1]
    exact findIdx?_first _ _ kind_bytes_not_space (by simp)
  have hnul : (serializeObj ⟨k, size, content⟩).findIdx? (· == 0) =
      some (k.asStrBytes.length + 1 + (natToDecBytes size).length) := by
    rw [hform2]
    have := findIdx?_first (p := (· == 0)) (v := 0)
      (k.asStrBytes ++ 32 :: natToDecBytes size) content
      (by
        intro x hx
        simp at hx
        rcases hx with hx | hx | hx
        · exact kind_bytes_not_nul x hx
        · simp [hx]
        · have := hdig x hx
          simp
          omega)
      (by simp)
    simpa [Nat.add_assoc, Nat.add_comm, Nat.add_left_comm] using this
  rw [deserializeObj, hspace, hnul]
  have hkind : (serializeObj ⟨k, size, content⟩).take k.asStrBytes.length =
      k.asStrBytes := by
    rw [hform1]
    exact List.take_left k.asStrBytes _
  have hsize : ((serializeObj ⟨k, size, content⟩).drop (k.asStrBytes.length + 1)).take
      ((k.asStrBytes.length + 1 + (natToDecBytes size).length) -
        (k.asStrBytes.length + 1)) = natToDecBytes size := by
    rw [hform3, List.drop_left' (by simp)]
    have harith : k.asStrBytes.length + 1 + (natToDecBytes size).length -
        (k.asStrBytes.length + 1) = (natToDecBytes size).length := by omega
    rw [harith]
    exact List.take_left _ _
  have hcontent : (serializeObj ⟨k, size, content⟩).drop
      (k.asStrBytes.length + 1 + (natToDecBytes size).length + 1) = content := by
    rw [hform4]
    refine List.drop_left' ?_
    simp
    omega
  have harith : k.asStrBytes.length + 1 ≤
      k.asStrBytes.length + 1 + (natToDecBytes size).length := by omega
  cases k with
  | commit => exact absurd rfl h
  | blob =>
    simp only [deserializeObj, hspace, hnul, hkind, if_pos rfl, if_pos harith, hsize,
      parseDec_natToDecBytes, hcontent]
    simp
  | tree =>
    simp only [deserializeObj, hspace, hnul, hkind,
      if_neg (show GitObjectKind.tree.asStrBytes ≠ GitObjectKind.blob.asStrBytes by decide),
      if_pos rfl, if_pos harith, hsize, parseDec_natToDecBytes, hcontent]
    simp

/-! ## Lemmas about UTF-8 decoding -/

theorem utf8SeqLen_pos {l : List Nat} {k : Nat} (h : utf8SeqLen l = some k) :
    1 ≤ k := by
  match l with
  | [] => simp [utf8SeqLen] at h
  | b0 :: rest =>
    simp only [utf8SeqLen] at h
    repeat' split at h
    all_goals simp_all
    all_goals omega

theorem utf8LossyAux_of_valid :
    ∀ fuel l, l.length ≤ fuel → validUtf8Aux fuel l = true →
      utf8LossyAux fuel l = l := by
  intro fuel
  induction fuel with
  | zero =>
    intro l hl _
    cases l with
    | nil => rfl
    | cons b rest => simp at hl
  | succ fuel ih =>
    intro l hl hv
    cases l with
    | nil => rfl
    | cons b rest =>
      unfold validUtf8Aux at hv
      unfold utf8LossyAux
      cases hseq : utf8SeqLen (b :: rest) with
      | none => simp [hseq] at hv
      | some k =>
        simp only [hseq] at hv ⊢
        have hk := utf8SeqLen_pos hseq
        have hlen : ((b :: rest).drop k).length ≤ fuel := by
          simp only [List.length_drop, List.length_cons]
          have : rest.length + 1 ≤ fuel + 1 := by simpa using hl
          omega
        rw [ih _ hlen hv, List.take_append_drop]

theorem utf8Lossy_of_valid {l : List Nat} (h : validUtf8 l = true) :
    utf8Lossy l = l :=
  utf8LossyAux_of_valid _ _ (Nat.le_refl _) h

/-! ## Store round trip -/

theorem storeFind_writeObj (o : GitObject) (s : Store) :
    storeFind (writeObj o s) (storePath (toHexChars (hashBytes o))) =
      some (serializeObj o) := by
  simp [writeObj, storeFind]

theorem hashHex_data (o : GitObject) :
    (hashHex o).data = toHexChars (hashBytes o) := rfl

/-- Writing any non-commit object and then running `cat-file -p` on its
digest yields the lossy decoding of its content. -/
theorem catFile_writeObj (o : GitObject) (s : Store) (h : o.kind ≠ .commit) :
    catFile (writeObj o s) (hashHex o) = some (parseAsBlob o) := by
  simp [catFile, gitObjectFromHex, hashHex_data, storeFind_writeObj,
    deserializeObj_serializeObj o h]

/-! ## Lemmas about the tree scanner -/

theorem findIdxFrom_ge {b : Nat} {c : List Nat} {start j : Nat}
    (h : findIdxFrom b c start = some j) : start ≤ j := by
  simp only [findIdxFrom, Option.map_eq_some'] at h
  obtain ⟨k, _, hk⟩ := h
  omega

/-- Whenever the scanning loop is at a cursor below `size` and the first
NUL it finds leaves fewer than 20 bytes after it, the loop fails
(`none`); it never returns a truncated entry list. -/
theorem parseTreeLoop_short (st : Store) (c : List Nat) (size fuel start j : Nat)
    (hstart : start < size) (hnul : findIdxFrom 0 c start = some j)
    (hshort : c.length < j + 1 + 20) :
    parseTreeLoop st c size fuel start = none := by
  cases fuel with
  | zero => rfl
  | succ fuel =>
    unfold parseTreeLoop
    rw [if_pos hstart]
    cases hsp : findIdxFrom 32 c start with
    | none => simp [hsp]
    | some sp =>
      simp only [hsp, hnul]
      cases hmode : parseDec ((c.drop start).take (sp - start)) with
      | none => simp [hmode]
      | some mode =>
        simp only [hmode]
        by_cases hsp1 : sp + 1 ≤ j
        · rw [if_pos hsp1]
          by_cases hname : validUtf8 ((c.drop (sp + 1)).take (j - (sp + 1))) = true
          · rw [if_pos hname, if_neg (by omega)]
          · rw [if_neg hname]
        · rw [if_neg hsp1]

/-! ## Lemmas about the byte-lexicographic order -/

theorem leB_total : ∀ x y : List Nat, leB x y = true ∨ leB y x = true := by
  intro x
  induction x with
  | nil => intro y; left; rfl
  | cons a as ih =>
    intro y
    cases y with
    | nil => right; rfl
    | cons b bs =>
      by_cases hab : a < b
      · left; simp [leB, hab]
      · by_cases hba : b < a
        · right; simp [leB, hba]
        · rcases ih bs with h | h
          · left; simp [leB, hab, hba, h]
          · right; simp [leB, hab, hba, h]

theorem leB_trans : ∀ x y z : List Nat,
    leB x y = true → leB y z = true → leB x z = true := by
  intro x
  induction x with
  | nil => intros; rfl
  | cons a as ih =>
    intro y z hxy hyz
    cases y with
    | nil => simp [leB] at hxy
    | cons b bs =>
      cases z with
      | nil => simp [leB] at hyz
      | cons c cs =>
        by_cases hab : a < b
        · by_cases hbc : b < c
          · simp [leB, show a < c by omega]
          · by_cases hcb : c < b
            · simp [leB, hbc, hcb] at hyz
            · simp [leB, show a < c by omega]
        · by_cases hba : b < a
          · simp [leB, hab, hba] at hxy
          · have hab' : a = b := by omega
            subst hab'
            by_cases hac : a < c
            · simp [leB, hac]
            · by_cases hca : c < a
              · simp [leB, hac, hca] at hyz
              · simp only [leB, if_neg hac, if_neg hca,
                  if_neg (Nat.lt_irrefl a)] at hxy hyz ⊢
                exact ih bs cs hxy hyz

theorem leB_antisymm : ∀ x y : List Nat,
    leB x y = true → leB y x = true → x = y := by
  intro x
  induction x with
  | nil =>
    intro y _ hyx
    cases y with
    | nil => rfl
    | cons b bs => simp [leB] at hyx
  | cons a as ih =>
    intro y hxy hyx
    cases y with
    | nil => simp [leB] at hxy
    | cons b bs =>
      by_cases hab : a < b
      · simp [leB, hab, show ¬b < a by omega] at hyx
      · by_cases hba : b < a
        · simp [leB, hab, hba] at hxy
        · have hab' : a = b := by omega
          subst hab'
          simp only [leB, if_neg (Nat.lt_irrefl a)] at hxy hyx
          rw [ih bs hxy hyx]

instance : IsTotal TreeEntry entryLE :=
  ⟨fun a b => leB_total a.name b.name⟩

instance : IsTrans TreeEntry entryLE :=
  ⟨fun a b c => leB_trans a.name b.name c.name⟩

/-! ## Lemmas about the tree builder -/

theorem fromPathS_dir (l : List (List Nat × FSTree)) (s : Store) :
    fromPathS (.dir l) s =
      (⟨.tree, ((List.insertionSort entryLE (buildEntriesS l s).1).flatMap
          serializeEntry).length,
        (List.insertionSort entryLE (buildEntriesS l s).1).flatMap serializeEntry⟩,
       (buildEntriesS l s).2) := by
  rcases hbe : buildEntriesS l s with ⟨es, s₁⟩
  simp [fromPathS, hbe]

theorem buildEntriesS_cons (name : List Nat) (child : FSTree)
    (rest : List (List Nat × FSTree)) (s : Store) :
    buildEntriesS ((name, child) :: rest) s =
      if name = gitName then buildEntriesS rest s
      else if child.isDir && child.isEmptyDir then buildEntriesS rest s
      else
        ((⟨if child.isDir then 40000 else 100644, (fromPathS child s).1.kind,
            hashBytes (fromPathS child s).1, name⟩ : TreeEntry) ::
            (buildEntriesS rest (writeObj (fromPathS child s).1 (fromPathS child s).2)).1,
          (buildEntriesS rest (writeObj (fromPathS child s).1 (fromPathS child s).2)).2) := by
  rcases hfp : fromPathS child s with ⟨obj, s₁⟩
  rcases hbe : buildEntriesS rest (writeObj obj s₁) with ⟨es, s₃⟩
  simp [buildEntriesS, hfp, hbe]

/-- The object (first component) returned by the builder does not depend
on the initial store: the builder only writes, it never reads. -/
theorem buildIndepAux (n : Nat) :
    (∀ t : FSTree, sizeOf t < n → ∀ s s' : Store,
      (fromPathS t s).1 = (fromPathS t s').1) ∧
    (∀ l : List (List Nat × FSTree), sizeOf l < n → ∀ s s' : Store,
      (buildEntriesS l s).1 = (buildEntriesS l s').1) := by
  induction n using Nat.strong_induction_on with
  | _ n ih =>
    constructor
    · intro t hst s s'
      cases t with
      | file c => rfl
      | dir l =>
        have hsz : sizeOf l + 1 ≤ sizeOf (FSTree.dir l) := by
          simp [FSTree.dir.sizeOf_spec]
          omega
        rw [fromPathS_dir, fromPathS_dir,
          (ih (sizeOf l + 1) (by omega)).2 l (by omega) s s']
    · intro l hsl s s'
      cases l with
      | nil => rfl
      | cons p rest =>
        obtain ⟨name, child⟩ := p
        have hsz : sizeOf child + 1 ≤ sizeOf ((name, child) :: rest) := by
          simp [List.cons.sizeOf_spec, Prod.mk.sizeOf_spec]
          omega
        have hszr : sizeOf rest + 1 ≤ sizeOf ((name, child) :: rest) := by
          simp [List.cons.sizeOf_spec, Prod.mk.sizeOf_spec]
          omega
        have ihc := (ih (sizeOf child + 1) (by omega)).1 child (by omega)
        have ihr := (ih (sizeOf rest + 1) (by omega)).2 rest (by omega)
        rw [buildEntriesS_cons, buildEntriesS_cons]
        by_cases h1 : name = gitName
        · simp [h1, ihr s s']
        · by_cases h2 : child.isDir && child.isEmptyDir
          · simp [h1, h2, ihr s s']
          · simp only [if_neg h1, h2, Bool.false_eq_true, if_false, ihc s s']
            rw [ihr _ _]

theorem fromPathS_fst_store (t : FSTree) (s s' : Store) :
    (fromPathS t s).1 = (fromPathS t s').1 :=
  (buildIndepAux (sizeOf t + 1)).1 t (by omega) s s'

theorem buildEntriesS_fst_eq_filterMap :
    ∀ (l : List (List Nat × FSTree)) (s : Store),
      (buildEntriesS l s).1 = l.filterMap pureEntry := by
  intro l
  induction l with
  | nil => intro s; rfl
  | cons p rest ih =>
    intro s
    obtain ⟨name, child⟩ := p
    rw [buildEntriesS_cons]
    by_cases h1 : name = gitName
    · simp [h1, pureEntry, ih s]
    · by_cases h2 : child.isDir && child.isEmptyDir
      · simp [h1, h2, pureEntry, ih s]
      · simp only [if_neg h1, h2, Bool.false_eq_true, if_false]
        rw [fromPathS_fst_store child s []]
        simp [pureEntry, h1, h2, ih _]

theorem pureEntry_spec {p : List Nat × FSTree} {e : TreeEntry}
    (h : pureEntry p = some e) :
    e.name = p.1 ∧ p.1 ≠ gitName ∧ p.2 ≠ FSTree.dir [] := by
  unfold pureEntry at h
  by_cases h1 : p.1 = gitName
  · simp [h1] at h
  · by_cases h2 : p.2.isDir && p.2.isEmptyDir
    · simp [h1, h2] at h
    · simp only [if_neg h1, h2, Bool.false_eq_true, if_false, Option.some.injEq] at h
      refine ⟨by rw [← h], h1, ?_⟩
      intro hd
      rw [hd] at h2
      simp [FSTree.isDir, FSTree.isEmptyDir] at h2

theorem pureEntry_name_sublist :
    ∀ l : List (List Nat × FSTree),
      ((l.filterMap pureEntry).map TreeEntry.name).Sublist (l.map Prod.fst) := by
  intro l
  induction l with
  | nil => simp
  | cons p rest ih =>
    cases hpe : pureEntry p with
    | none =>
      simp only [List.filterMap_cons, hpe, List.map_cons]
      exact ih.cons p.1
    | some e =>
      simp only [List.filterMap_cons, hpe, List.map_cons, (pureEntry_spec hpe).1]
      exact ih.cons₂ p.1

/-- Two permuted entry lists with no duplicate names have the same
insertion sort: the sort key (the name) determines the order and, by
no-duplication, the entry. -/
theorem insertionSort_perm_eq (es₁ es₂ : List TreeEntry)
    (hperm : es₁.Perm es₂) (hnd : (es₁.map TreeEntry.name).Nodup) :
    List.insertionSort entryLE es₁ = List.insertionSort entryLE es₂ := by
  have h₁ : (List.insertionSort entryLE es₁).Perm es₁ :=
    List.perm_insertionSort entryLE es₁
  have h₂ : (List.insertionSort entryLE es₂).Perm es₂ :=
    List.perm_insertionSort entryLE es₂
  have hp : (List.insertionSort entryLE es₁).Perm (List.insertionSort entryLE es₂) :=
    h₁.trans (hperm.trans h₂.symm)
  have hnd₂ : (es₂.map TreeEntry.name).Nodup :=
    ((hperm.map TreeEntry.name).nodup_iff).1 hnd
  have hs₁ : List.Sorted entryLE (List.insertionSort entryLE es₁) :=
    List.sorted_insertionSort entryLE es₁
  have hs₂ : List.Sorted entryLE (List.insertionSort entryLE es₂) :=
    List.sorted_insertionSort entryLE es₂
  have hne₁ : (List.insertionSort entryLE es₁).Pairwise
      (fun a b => a.name ≠ b.name) := by
    rw [← List.pairwise_map (f := TreeEntry.name)]
    exact (((h₁.map TreeEntry.name).nodup_iff).2 hnd : _)
  have hne₂ : (List.insertionSort entryLE es₂).Pairwise
      (fun a b => a.name ≠ b.name) := by
    rw [← List.pairwise_map (f := TreeEntry.name)]
    exact (((h₂.map TreeEntry.name).nodup_iff).2 hnd₂ : _)
  haveI : IsAntisymm TreeEntry (fun a b => entryLE a b ∧ a.name ≠ b.name) :=
    ⟨fun a b hab hba => absurd (leB_antisymm _ _ hab.1 hba.1) hab.2⟩
  exact List.eq_of_perm_of_sorted hp (hs₁.and hne₁) (hs₂.and hne₂)

/-! ## Claim theorems -/

/-- C1 counterexample: decoding the encoded envelope of a Commit object
fails — the decoder's kind match has no arm for the `commit` token and
panics — so the round trip does not hold for kind Commit. -/
theorem c1_commit_roundtrip_fails :
    deserializeObj (serializeObj ⟨.commit, 0, []⟩) = none := by decide

/-- C1 (amended): for every byte content `C`, decoding the encoded
envelope returns the original object for the two kinds the decoder
accepts, Blob and Tree: the kind is preserved, the size equals the
length of `C`, and the content is exactly `C`.  (For Commit the decoder
rejects the kind token, see the counterexample.) -/
theorem c1_roundtrip_blob_tree (c : List Nat) :
    deserializeObj (serializeObj ⟨.blob, c.length, c⟩) = some ⟨.blob, c.length, c⟩ ∧
    deserializeObj (serializeObj ⟨.tree, c.length, c⟩) = some ⟨.tree, c.length, c⟩ := by
  refine ⟨deserializeObj_serializeObj _ ?_, deserializeObj_serializeObj _ ?_⟩ <;> simp

/-- C2: for every directory, the Tree object built by the tree builder —
its content bytes and hence its digest — is independent of the order in
which the filesystem enumerates the children: any permutation of the
child list (with the distinct names a filesystem guarantees) yields the
same Tree object and the same digest, whatever each run's initial store. -/
theorem c2_tree_independent_of_enum_order
    (l₁ l₂ : List (List Nat × FSTree)) (s₁ s₂ : Store)
    (hperm : l₁.Perm l₂) (hnd : (l₁.map Prod.fst).Nodup) :
    (fromPathS (FSTree.dir l₁) s₁).1 = (fromPathS (FSTree.dir l₂) s₂).1 ∧
    hashHex (fromPathS (FSTree.dir l₁) s₁).1 =
      hashHex (fromPathS (FSTree.dir l₂) s₂).1 := by
  have h : (fromPathS (FSTree.dir l₁) s₁).1 = (fromPathS (FSTree.dir l₂) s₂).1 := by
    rw [fromPathS_dir, fromPathS_dir, buildEntriesS_fst_eq_filterMap,
      buildEntriesS_fst_eq_filterMap,
      insertionSort_perm_eq _ _ (hperm.filterMap pureEntry)
        (List.Nodup.sublist (pureEntry_name_sublist l₁) hnd)]
  exact ⟨h, by rw [h]⟩

/-- C2 witness: a two-child directory enumerated in the two possible
orders yields the same Tree object. -/
theorem c2_witness :
    ([([97], FSTree.file [120]), ([98], FSTree.file [121])] :
        List (List Nat × FSTree)).Perm
      [([98], FSTree.file [121]), ([97], FSTree.file [120])] ∧
    (([([97], FSTree.file [120]), ([98], FSTree.file [121])] :
        List (List Nat × FSTree)).map Prod.fst).Nodup ∧
    (fromPathS (FSTree.dir [([97], FSTree.file [120]), ([98], FSTree.file [121])]) []).1 =
      (fromPathS (FSTree.dir [([98], FSTree.file [121]), ([97], FSTree.file [120])]) []).1 :=
  ⟨List.Perm.swap _ _ _, by decide,
    (c2_tree_independent_of_enum_order _ _ [] []
      (List.Perm.swap _ _ _) (by decide)).1⟩

/-- C3: whenever the tree scanner is at a cursor below the declared size
and the first NUL delimiter it finds from there leaves fewer than 20
bytes after it, decoding fails (the source's out-of-range hash slice and
delimiter `expect`s panic; panics are typed failures in this embedding);
the loop never returns a truncated entry list.  `parseAsTree` starts
this loop at cursor 0, and a `none` from any iteration propagates to the
whole scan. -/
theorem c3_tree_short_tail_errors (st : Store) (c : List Nat)
    (size fuel start j : Nat) (hstart : start < size)
    (hnul : findIdxFrom 0 c start = some j) (hshort : c.length < j + 1 + 20) :
    parseTreeLoop st c size fuel start = none :=
  parseTreeLoop_short st c size fuel start j hstart hnul hshort

/-- C3 witness: content `100644 a\0` followed by only 3 bytes. -/
theorem c3_witness :
    0 < 12 ∧
    findIdxFrom 0 [49, 48, 48, 54, 52, 52, 32, 97, 0, 1, 2, 3] 0 = some 8 ∧
    ([49, 48, 48, 54, 52, 52, 32, 97, 0, 1, 2, 3] : List Nat).length < 8 + 1 + 20 ∧
    parseTreeLoop [] [49, 48, 48, 54, 52, 52, 32, 97, 0, 1, 2, 3] 12 13 0 = none :=
  ⟨by decide, by decide, by decide,
    c3_tree_short_tail_errors [] _ 12 13 0 8 (by decide) (by decide) (by decide)⟩

/-- C4 counterexample: for a directory whose only child `a` is a
directory containing only the empty directory `b`, the builder does not
skip `a`: the resulting Tree has exactly one entry, referencing the
empty Tree object (the claim says such children are skipped and no
entry ever references an empty tree). -/
theorem c4_counterexample :
    (fromPathS (FSTree.dir [([97], FSTree.dir [([98], FSTree.dir [])])]) []).1.content =
      serializeEntry ⟨40000, .tree, hashBytes ⟨.tree, 0, []⟩, [97]⟩ := by
  simp [fromPathS, buildEntriesS]
  decide

/-- C4 (amended): the builder skips a child directory only when it has
no direct children at all (and skips the `.git` entry): every produced
entry comes from a child that is not a directly-empty directory and is
not named `.git`.  A directory whose children are all themselves empty
directories is kept, and its entry references an empty tree (see the
counterexample). -/
theorem c4_skips_only_directly_empty (l : List (List Nat × FSTree)) (s : Store)
    (e : TreeEntry) (he : e ∈ (buildEntriesS l s).1) :
    ∃ t, (e.name, t) ∈ l ∧ t ≠ FSTree.dir [] ∧ e.name ≠ gitName := by
  rw [buildEntriesS_fst_eq_filterMap, List.mem_filterMap] at he
  obtain ⟨p, hp, hpe⟩ := he
  obtain ⟨hname, hgit, hdir⟩ := pureEntry_spec hpe
  refine ⟨p.2, ?_, hdir, hname ▸ hgit⟩
  rw [hname]
  simpa using hp

/-- C4 witness: a single regular file child produces an entry, and that
entry comes from a surviving (non-empty-directory, non-`.git`) child. -/
theorem c4_witness :
    (⟨100644, .blob, hashBytes ⟨.blob, 1, [120]⟩, [97]⟩ : TreeEntry) ∈
      (buildEntriesS [([97], FSTree.file [120])] []).1 ∧
    ∃ t, (([97] : List Nat), t) ∈ [([97], FSTree.file [120])] ∧
      t ≠ FSTree.dir [] ∧ ([97] : List Nat) ≠ gitName := by
  have hm : (⟨100644, .blob, hashBytes ⟨.blob, 1, [120]⟩, [97]⟩ : TreeEntry) ∈
      (buildEntriesS [([97], FSTree.file [120])] []).1 := by
    simp [buildEntriesS, fromPathS, gitName, FSTree.isDir, FSTree.isEmptyDir]
  exact ⟨hm, c4_skips_only_directly_empty _ _ _ hm⟩

/-- C5 counterexample: `hash-object` on a file containing exactly
`hello\n` does not yield the digest the claim states (which is 39 hex
characters, not even a well-formed SHA-1 rendering). -/
theorem c5_claimed_digest_wrong :
    (hashObjectCmd (FSTree.file [104, 101, 108, 108, 111, 10]) false []).1 ≠
      "e965047ad7c57865823c7d992b1d046ea66edf6" := by
  simp only [hashObjectCmd, fromPathS]
  decide

/-- C5 (amended): `hash-object` on a file containing exactly `hello\n`
yields the digest `ce013625030ba8dba906f756967f9e9ca394464a` (the SHA-1
of `blob 6\0hello\n`), and `cat-file -p` on that digest, after the
write, returns `hello\n`. -/
theorem c5_scenario_a :
    (hashObjectCmd (FSTree.file [104, 101, 108, 108, 111, 10]) true []).1 =
      "ce013625030ba8dba906f756967f9e9ca394464a" ∧
    catFile (hashObjectCmd (FSTree.file [104, 101, 108, 108, 111, 10]) true []).2
        "ce013625030ba8dba906f756967f9e9ca394464a" =
      some [104, 101, 108, 108, 111, 10] := by
  constructor
  · simp only [hashObjectCmd, fromPathS]
    decide
  · simp only [hashObjectCmd, fromPathS]
    decide

/-- C6 counterexample: the decoder does not compare the declared size
with the remaining content: `blob 5\0ab` decodes successfully to an
object whose `size` (5) differs from its content length (2), instead of
failing. -/
theorem c6_decoder_accepts_size_mismatch :
    deserializeObj [98, 108, 111, 98, 32, 53, 0, 97, 98] =
      some ⟨.blob, 5, [97, 98]⟩ ∧
    (5 : Nat) ≠ ([97, 98] : List Nat).length := by decide

/-- C6 (amended): every object built by the constructors (from a file or
directory path, and the commit builder) satisfies
`size = content.length`; the decoder, however, does not validate the
declared size token against the remaining content (see the
counterexample). -/
theorem c6_constructor_invariant (t : FSTree) (s : Store) (tr : String)
    (p : Option String) (m : String) (ts tz : Int) :
    ((fromPathS t s).1).size = ((fromPathS t s).1).content.length ∧
    (commitObj tr p m ts tz).size = (commitObj tr p m ts tz).content.length := by
  constructor
  · cases t with
    | file c => rfl
    | dir l => rw [fromPathS_dir]
  · rfl

/-- C7 counterexample: with pretty-print requested, `cat-file` on the
digest of a stored Tree object returns its (empty) content instead of
raising: the kind assertion in `parse_as_blob` is commented out. -/
theorem c7_catfile_tree_returns_content :
    catFile (writeObj ⟨.tree, 0, []⟩ []) (hashHex ⟨.tree, 0, []⟩) = some [] := by
  decide

/-- C7 (amended): `cat-file -p` performs no kind check: for every stored
Tree object it returns the lossy decoding of the tree's binary content
rather than failing.  (Only a stored Commit object makes `cat-file`
fail, and that failure happens earlier, in the envelope decoder's kind
match.) -/
theorem c7_catfile_no_kind_check (c : List Nat) (s : Store) :
    catFile (writeObj ⟨.tree, c.length, c⟩ s) (hashHex ⟨.tree, c.length, c⟩) =
      some (utf8Lossy c) :=
  catFile_writeObj ⟨.tree, c.length, c⟩ s (by simp)

/-- C8 counterexample: the commit content is not determined by the tree
digest, parent and message alone: two invocations with identical such
inputs but different internal clock readings (`Local::now()` inside
`get_timestamp_str`) produce different commit objects. -/
theorem c8_commit_depends_on_clock :
    commitObj "t" none "m" 0 0 ≠ commitObj "t" none "m" 1 0 := by decide

/-- C8 (amended): the timestamp is computed inside the commit builder
from the ambient clock, not supplied by the caller; the codec is
deterministic only given the clock: two invocations with identical tree
digest, parent and message whose clock readings render to the same
timestamp token produce byte-identical commit objects (and hence
identical digests). -/
theorem c8_commit_deterministic_given_clock (tr : String) (p : Option String)
    (m : String) (ts₁ tz₁ ts₂ tz₂ : Int)
    (h : getTimestampStr ts₁ tz₁ = getTimestampStr ts₂ tz₂) :
    commitObj tr p m ts₁ tz₁ = commitObj tr p m ts₂ tz₂ := by
  simp only [commitObj, h]

/-- C8 witness: two distinct clock readings (zone offsets 3600s and
3659s, both rendering as `+0100`) give the same timestamp token and the
same commit object. -/
theorem c8_witness :
    getTimestampStr 5 3600 = getTimestampStr 5 3659 ∧
    commitObj "t" none "m" 5 3600 = commitObj "t" none "m" 5 3659 :=
  ⟨by decide, c8_commit_deterministic_given_clock "t" none "m" 5 3600 5 3659 (by decide)⟩

/-- C9 counterexample: `cat-file -p` on a stored blob whose content is
the single (invalid-UTF-8) byte `0xFF` returns the replacement
character bytes `EF BF BD`, not the original content. -/
theorem c9_lossy_alters_invalid_utf8 :
    catFile (writeObj ⟨.blob, 1, [255]⟩ []) (hashHex ⟨.blob, 1, [255]⟩) =
      some [239, 191, 189] ∧
    ([239, 191, 189] : List Nat) ≠ [255] := by
  constructor
  · decide
  · decide

/-- C9 (amended): for every stored blob whose content is valid UTF-8,
`cat-file -p` returns exactly the content bytes; content that is not
valid UTF-8 is altered by the lossy decoding (see the counterexample). -/
theorem c9_catfile_returns_valid_utf8_content (c : List Nat) (s : Store)
    (h : validUtf8 c = true) :
    catFile (writeObj ⟨.blob, c.length, c⟩ s) (hashHex ⟨.blob, c.length, c⟩) =
      some c := by
  rw [catFile_writeObj ⟨.blob, c.length, c⟩ s (by simp)]
  simp [parseAsBlob, utf8Lossy_of_valid h]

/-- C9 witness: the two-byte ASCII blob `hi`. -/
theorem c9_witness :
    validUtf8 [104, 105] = true ∧
    catFile (writeObj ⟨.blob, 2, [104, 105]⟩ []) (hashHex ⟨.blob, 2, [104, 105]⟩) =
      some [104, 105] :=
  ⟨by decide, c9_catfile_returns_valid_utf8_content [104, 105] [] (by decide)⟩

/-- C10: `hash-object` on a regular file with `write = false` computes
the digest and leaves the store exactly as it was; only the `-w` flag
(or a directory argument, whose builder writes children) writes. -/
theorem c10_hash_object_no_write (c : List Nat) (s : Store) :
    (hashObjectCmd (FSTree.file c) false s).2 = s := by
  simp [hashObjectCmd, fromPathS]

end GitRs
